import Mathlib

/-!
Verification development for the `accountant` repository.

Shallow embedding of `src/ingestion/drivers/csv_importer.py`
(`GenericCSVImporter`: `parse`, `_parse_row`, `_parse_date`, `_parse_amount`,
`to_beancount`) and of `src/plugins/inflation.py` (`InflationPlugin`:
`generate_prices`, `format_price_entry`, `calculate_inflation_rate`).

Python `decimal.Decimal` values are embedded exactly: a finite decimal is a
sign, a natural-number coefficient and an integer exponent, and its numeric
value is the exact rational `coeff * 10 ^ exp` (no binary floating point
anywhere).  Context arithmetic (28 significant digits, the default
`decimal` context) is embedded for the operations the inflation plugin
performs: division, subtraction and `quantize`.  Exponent-range limits
(`Emin`/`Emax`) of the Python context are far outside every input considered
here and are not modelled.
-/

namespace Accountant

/-- Python exception kinds that the embedded code can raise. -/
inductive PyErr where
  | keyError (name : String)
  | typeError
  | valueError
  | invalidOperation
  | divisionByZero
  deriving DecidableEq, Repr

instance {ε α : Type} [DecidableEq ε] [DecidableEq α] : DecidableEq (Except ε α)
  | .error e, .error f =>
    if h : e = f then isTrue (congrArg Except.error h)
    else isFalse (fun hh => h (Except.error.inj hh))
  | .error _, .ok _ => isFalse (fun hh => Except.noConfusion hh)
  | .ok _, .error _ => isFalse (fun hh => Except.noConfusion hh)
  | .ok a, .ok b =>
    if h : a = b then isTrue (congrArg Except.ok h)
    else isFalse (fun hh => h (Except.ok.inj hh))

/-! ## Small numeric helpers -/

/-- Fuelled digit count; with fuel `f` it is correct for all `n < 10 ^ f`. -/
def numDigitsAux : Nat → Nat → Nat
  | 0, _ => 1
  | fuel + 1, n => if n < 10 then 1 else numDigitsAux fuel (n / 10) + 1

/-- Number of decimal digits of `n`, i.e. Python `len(str(n))` for a
natural number.  Fuel 400 covers every number below `10 ^ 400`, far beyond
any coefficient reachable in this development. -/
def numDigits (n : Nat) : Nat := numDigitsAux 400 n

/-- Rational value `10 ^ e` for an integer exponent `e`. -/
def ratPow10 : Int → Rat
  | Int.ofNat n => ((10 ^ n : Nat) : Rat)
  | Int.negSucc n => 1 / ((10 ^ (n + 1) : Nat) : Rat)

/-- Value of a digit list read most-significant first (`[4,5] ↦ 45`). -/
def digitsVal (ds : List Nat) : Nat := ds.foldl (fun a d => a * 10 + d) 0

/-! ## Exact embedding of finite `decimal.Decimal` values -/

/-- A finite Python `Decimal`: sign (`true` = negative), coefficient and
exponent; the numeric value is `(-1)^sign * coeff * 10 ^ exp`. -/
structure Dec where
  sign : Bool
  coeff : Nat
  exp : Int
  deriving DecidableEq, Repr

/-- Exact rational value of a finite decimal. -/
def Dec.val (d : Dec) : Rat :=
  (if d.sign then -1 else 1) * (d.coeff : Rat) * ratPow10 d.exp

/-- Result of the `Decimal` string constructor: finite value, infinity, or
(possibly signaling) NaN with a diagnostic payload. -/
inductive DecValue where
  | fin (d : Dec)
  | inf (sign : Bool)
  | nan (sign : Bool) (signaling : Bool) (payload : Nat)
  deriving DecidableEq, Repr

/-! ## The `Decimal` string constructor

Embeds the numeric-string grammar of `decimal.Decimal.__new__`: optional
surrounding whitespace, underscores removed, an optional sign, then either
a digit string with optional fractional part and optional exponent, or an
`Infinity`/`NaN` form (case-insensitive). -/

/-- Whitespace characters recognised by Python `str.strip` / `\s`
(the ASCII whitespace set together with the common Unicode space
characters; exotic Unicode category-Zs members behave identically for
every claim considered here). -/
def pyWs (c : Char) : Bool :=
  c = ' ' || c = '\t' || c = '\n' || c = '\r' || c = '\x0b' || c = '\x0c' ||
  c = '\u0085' || c = ' ' || c = ' ' || c = ' ' || c = '　'

/-- Strip leading and trailing whitespace from a character list. -/
def trimWs (cs : List Char) : List Char :=
  ((cs.dropWhile pyWs).reverse.dropWhile pyWs).reverse

/-- Numeric value of a digit-character list (`['4','5'] ↦ 45`). -/
def charsVal (cs : List Char) : Nat :=
  cs.foldl (fun a c => a * 10 + (c.toNat - 48)) 0

/-- Case-insensitive comparison against a lowercase pattern. -/
def ciEq (cs : List Char) (pat : List Char) : Bool :=
  cs.map Char.toLower == pat

/-- Parse the part of a decimal numeric string after the optional sign:
digits, optional point and fraction, optional exponent; the whole
remainder must be consumed. -/
def parseDecBody (sign : Bool) (cs : List Char) : Option DecValue :=
  let ipart := cs.takeWhile Char.isDigit
  let rest := cs.dropWhile Char.isDigit
  let fracAndRest : List Char × List Char :=
    if rest.head? = some '.' then (rest.tail.takeWhile Char.isDigit, rest.tail.dropWhile Char.isDigit)
    else ([], rest)
  let fpart := fracAndRest.1
  let rest2 := fracAndRest.2
  if ipart.isEmpty && fpart.isEmpty then none
  else
    let coeff := charsVal (ipart ++ fpart)
    let mkFin (e : Int) : DecValue :=
      DecValue.fin ⟨sign, coeff, e - (fpart.length : Int)⟩
    if rest2.isEmpty then some (mkFin 0)
    else if rest2.head? = some 'e' || rest2.head? = some 'E' then
      let r3 := rest2.tail
      let esign : Bool := r3.head? = some '-'
      let eds := if r3.head? = some '+' || r3.head? = some '-' then r3.tail else r3
      if eds.isEmpty || !(eds.all Char.isDigit) then none
      else
        let ev : Int := if esign then -(charsVal eds : Int) else (charsVal eds : Int)
        some (mkFin ev)
    else none

/-- Parse an `Infinity` or `NaN` form (the remainder after the sign). -/
def parseDecSpecial (sign : Bool) (cs : List Char) : Option DecValue :=
  if ciEq cs ['i', 'n', 'f'] || ciEq cs ['i', 'n', 'f', 'i', 'n', 'i', 't', 'y'] then
    some (DecValue.inf sign)
  else
    let sigAndRest : Bool × List Char :=
      match cs with
      | 's' :: r => (true, r)
      | 'S' :: r => (true, r)
      | r => (false, r)
    let r := sigAndRest.2
    if ciEq (r.take 3) ['n', 'a', 'n'] && (r.drop 3).all Char.isDigit then
      some (DecValue.nan sign sigAndRest.1 (charsVal (r.drop 3)))
    else none

/-- The `Decimal` string constructor on a character list: `some v` on a
valid numeric string, `none` when the constructor would raise
`InvalidOperation` (conversion syntax). -/
def parseDecimal (cs : List Char) : Option DecValue :=
  let cs := (trimWs cs).filter (fun c => c ≠ '_')
  let signAndRest : Bool × List Char :=
    if cs.head? = some '+' then (false, cs.tail)
    else if cs.head? = some '-' then (true, cs.tail)
    else (false, cs)
  match parseDecBody signAndRest.1 signAndRest.2 with
  | some v => some v
  | none => parseDecSpecial signAndRest.1 signAndRest.2

/-! ## `GenericCSVImporter._parse_amount` -/

/-- Characters removed by `re.sub(r'[$€£¥₹,\s]', '', amount_str)`. -/
def isStrippedChar (c : Char) : Bool :=
  c = '$' || c = '€' || c = '£' || c = '¥' || c = '₹' || c = ',' || pyWs c

/-- The cleaning stage of `_parse_amount`: remove currency symbols, commas
and whitespace anywhere in the string. -/
def cleanAmount (cs : List Char) : List Char :=
  cs.filter (fun c => !(isStrippedChar c))

/-- The parenthesis stage of `_parse_amount`: an enclosing parenthesis pair
becomes a leading minus sign. -/
def parenAdjust (cs : List Char) : List Char :=
  if cs.head? = some '(' && cs.getLast? = some ')' then
    '-' :: (cs.drop 1).dropLast
  else cs

/-- `GenericCSVImporter._parse_amount` on a character list: clean, apply
the accounting-negation convention, then construct a `Decimal`;
a string the `Decimal` constructor rejects raises `InvalidOperation`. -/
def parse_amount_chars (cs : List Char) : Except PyErr DecValue :=
  match parseDecimal (parenAdjust (cleanAmount cs)) with
  | some v => Except.ok v
  | none => Except.error PyErr.invalidOperation

/-- `GenericCSVImporter._parse_amount`. -/
def parse_amount (s : String) : Except PyErr DecValue :=
  parse_amount_chars s.data

/-! ## `GenericCSVImporter._parse_date`

Embeds `datetime.strptime` for the six fixed patterns.  For these patterns
(three all-digit fields joined by a fixed separator, with `%Y` matching
exactly four digits and `%m`, `%d` matching one or two digits within
range), a string matches the pattern exactly when splitting it at the
separator yields three such fields; the resulting `datetime` then
validates the calendar date (year at least 1, day within the month,
leap years per the Gregorian rule). -/

/-- Calendar date produced by `datetime.strptime(...).date()`. -/
structure PyDate where
  year : Nat
  month : Nat
  day : Nat
  deriving DecidableEq, Repr

/-- Gregorian leap-year rule used by `datetime`. -/
def isLeap (y : Nat) : Bool :=
  y % 4 = 0 && (y % 100 ≠ 0 || y % 400 = 0)

/-- Number of days in a month (month assumed in 1..12). -/
def daysInMonth (y m : Nat) : Nat :=
  if m = 2 then (if isLeap y then 29 else 28)
  else if m = 4 || m = 6 || m = 9 || m = 11 then 30
  else 31

/-- The `datetime` constructor check: `MINYEAR <= year <= MAXYEAR`,
month 1..12, day within the month. -/
def validDate (y m d : Nat) : Bool :=
  1 ≤ y && y ≤ 9999 && 1 ≤ m && m ≤ 12 && 1 ≤ d && d ≤ daysInMonth y m

/-- Field order of a `strptime` pattern. -/
inductive FieldOrder where
  | ymd
  | mdy
  | dmy
  deriving DecidableEq, Repr

/-- One `strptime` pattern: a field order and a separator character. -/
structure DateFormat where
  order : FieldOrder
  sep : Char
  deriving DecidableEq, Repr

/-- The six patterns of `_parse_date`, in source order. -/
def dateFormats : List DateFormat :=
  [⟨.ymd, '-'⟩, ⟨.mdy, '/'⟩, ⟨.dmy, '/'⟩, ⟨.ymd, '/'⟩, ⟨.dmy, '-'⟩, ⟨.mdy, '-'⟩]

/-- Split a character list at every occurrence of `sep`, keeping empty
fields (like the regex alternation, a separator at the edge produces an
empty field that then fails the digit checks). -/
def splitOnChar (sep : Char) : List Char → List (List Char)
  | [] => [[]]
  | c :: rest =>
    match splitOnChar sep rest with
    | [] => [[c]]
    | g :: gs => if c = sep then [] :: g :: gs else (c :: g) :: gs

/-- Match a `%Y` field: exactly four digits. -/
def parseYearField (f : List Char) : Option Nat :=
  if f.length = 4 && f.all Char.isDigit then some (charsVal f) else none

/-- Match a `%m` or `%d` field: one or two digits, value in `1..hi`. -/
def parseTwoDigitField (hi : Nat) (f : List Char) : Option Nat :=
  if (f.length = 1 || f.length = 2) && f.all Char.isDigit then
    let v := charsVal f
    if 1 ≤ v && v ≤ hi then some v else none
  else none

/-- Try one `strptime` pattern against a string; `some` is the parsed,
calendar-validated date of `datetime.strptime(s, fmt).date()`. -/
def tryFormat (fmt : DateFormat) (s : String) : Option PyDate :=
  match splitOnChar fmt.sep s.data with
  | [f1, f2, f3] =>
    let fields : Option (Nat × Nat × Nat) :=
      match fmt.order with
      | .ymd => do pure (← parseYearField f1, ← parseTwoDigitField 12 f2, ← parseTwoDigitField 31 f3)
      | .mdy => do pure (← parseYearField f3, ← parseTwoDigitField 12 f1, ← parseTwoDigitField 31 f2)
      | .dmy => do pure (← parseYearField f3, ← parseTwoDigitField 12 f2, ← parseTwoDigitField 31 f1)
    match fields with
    | some (y, m, d) => if validDate y m d then some ⟨y, m, d⟩ else none
    | none => none
  | _ => none

/-- First-match loop of `_parse_date` over a list of patterns. -/
def parse_date_over : List DateFormat → String → Except PyErr PyDate
  | [], _ => Except.error PyErr.valueError
  | fmt :: fmts, s =>
    match tryFormat fmt s with
    | some d => Except.ok d
    | none => parse_date_over fmts s

/-- `GenericCSVImporter._parse_date`: try the six patterns in order,
return the first match, raise `ValueError` when none matches. -/
def parse_date (s : String) : Except PyErr PyDate :=
  parse_date_over dateFormats s

/-! ## `GenericCSVImporter._parse_row`

A raw row is the dictionary produced by `csv.DictReader`: field names
zipped with cell values, where a row shorter than the header fills the
missing trailing fields with `None` (embedded as `Option.none`) and
surplus cells are collected under the non-string `restkey` and are
therefore invisible to the string lookups the importer performs. -/

/-- A `DictReader` row: insertion-ordered mapping from field name to cell,
where a cell is `none` for the Python `None` fill value. -/
abbrev Row := List (String × Option String)

/-- Insert into an insertion-ordered dictionary: an existing key keeps its
position and gets the new value, a new key is appended. -/
def dictInsert (k : String) (v : Option String) (d : Row) : Row :=
  if d.any (fun p => p.1 = k) then
    d.map (fun p => if p.1 = k then (k, v) else p)
  else d ++ [(k, v)]

/-- Build the `DictReader` row dictionary from header field names and the
cells of one data line (`dict(zip(fieldnames, row))` plus the `restval`
fill for missing trailing fields). -/
def buildRow (fields : List String) (cells : List String) : Row :=
  (List.range fields.length).foldl
    (fun d i => dictInsert (fields.getD i "") (cells.get? i) d) []

/-- The canonical transaction dictionary produced by `_parse_row`. -/
structure Txn where
  date : PyDate
  narration : Option String
  amount : DecValue
  meta : Option (List (String × Option String))
  deriving DecidableEq, Repr

/-- Column-mapping configuration of the importer (the fields of
`self.columns` plus `institution` and `account` used by the formatter). -/
structure Config where
  institution : String
  account : String
  skip_header_lines : Nat
  dateCol : String
  narrationCol : String
  amountCol : String
  metaCols : Option (List String)
  deriving DecidableEq, Repr

/-- The metadata extraction of `_parse_row`: each configured metadata
field that is present in the row is copied verbatim (absent ones are
silently skipped). -/
def metaOf (cfg : Config) (row : Row) : Option (List (String × Option String)) :=
  match cfg.metaCols with
  | none => none
  | some ms =>
    some (ms.foldl
      (fun acc f =>
        match row.lookup f with
        | some v => dictInsert f v acc
        | none => acc) [])

/-- `GenericCSVImporter._parse_row`: look up the configured date,
narration and amount fields (a key absent from the row dictionary is a
`KeyError` naming the configured field; a `None` cell reaching `strptime`
or `re.sub` is a `TypeError`), then copy the configured metadata fields
that are present. -/
def parse_row (cfg : Config) (row : Row) : Except PyErr Txn :=
  match row.lookup cfg.dateCol with
  | none => Except.error (PyErr.keyError cfg.dateCol)
  | some none => Except.error PyErr.typeError
  | some (some dateStr) =>
    match parse_date dateStr with
    | Except.error e => Except.error e
    | Except.ok d =>
      match row.lookup cfg.narrationCol with
      | none => Except.error (PyErr.keyError cfg.narrationCol)
      | some narr =>
        match row.lookup cfg.amountCol with
        | none => Except.error (PyErr.keyError cfg.amountCol)
        | some none => Except.error PyErr.typeError
        | some (some amountStr) =>
          match parse_amount amountStr with
          | Except.error e => Except.error e
          | Except.ok a =>
            Except.ok { date := d, narration := narr, amount := a, meta := metaOf cfg row }

/-! ## `GenericCSVImporter.parse`

The file content is taken as its list of lines (what `readlines` returns,
with line terminators already removed; the `csv` module strips them from
every parsed field anyway).  The comma-separated splitting of the `csv`
module is embedded without quote or escape handling, which no claim
exercises. -/

/-- Split one line into cells the way `csv.reader` does for plain
comma-separated content: an empty line is the empty row (which
`DictReader` skips), otherwise split at every comma. -/
def csvSplit (line : String) : List String :=
  if line = "" then [] else (splitOnChar ',' line.data).map (fun g => String.mk g)

/-- Monadic map over `Except` mirroring a Python `for` loop that appends
to a list and lets exceptions escape: the first failing element aborts
everything, and no partial list is produced. -/
def exceptMapM (f : α → Except PyErr β) : List α → Except PyErr (List β)
  | [] => Except.ok []
  | x :: xs =>
    match f x with
    | Except.error e => Except.error e
    | Except.ok y =>
      match exceptMapM f xs with
      | Except.error e => Except.error e
      | Except.ok ys => Except.ok (y :: ys)

/-- Row dictionaries of the data lines: lines after the header are split,
blank rows are skipped by `DictReader`, and each remaining row is zipped
with the header field names. -/
def rowDicts (fields : List String) (dataLines : List String) : List Row :=
  ((dataLines.map csvSplit).filter (fun r => r ≠ [])).map (buildRow fields)

/-- `GenericCSVImporter.parse` on the list of lines of the file: skip the
configured number of lines, take the next line as the CSV header and all
following lines as data; if the skip count reaches the total line count,
return the empty transaction list. -/
def parse (cfg : Config) (lines : List String) : Except PyErr (List Txn) :=
  if cfg.skip_header_lines ≥ lines.length then Except.ok []
  else
    let header := lines.getD cfg.skip_header_lines ""
    let dataLines := lines.drop (cfg.skip_header_lines + 1)
    exceptMapM (parse_row cfg) (rowDicts (csvSplit header) dataLines)

/-! ## `GenericCSVImporter.to_beancount` -/

/-- Python `str()` of an optional string (an f-string renders `None`). -/
def pyStrOpt : Option String → String
  | none => "None"
  | some s => s

/-- Left-pad a numeral with zeros to the given width. -/
def padZeros (width : Nat) (s : String) : String :=
  String.mk (List.replicate (width - s.length) '0') ++ s

/-- Decimal-digit string of a natural number, `str(n)`. -/
def natStr (n : Nat) : String := String.mk (Nat.toDigits 10 n)

/-- `date.strftime('%Y-%m-%d')`. -/
def strftimeISO (d : PyDate) : String :=
  padZeros 4 (natStr d.year) ++ "-" ++ padZeros 2 (natStr d.month) ++ "-" ++ padZeros 2 (natStr d.day)

/-- Signed decimal string of an integer, `str` style (no plus sign). -/
def intStr (i : Int) : String :=
  if i < 0 then "-" ++ natStr i.natAbs else natStr i.natAbs

/-- Exponent rendering of `Decimal.__str__`: sign always printed. -/
def expStr (i : Int) : String :=
  if i < 0 then "E-" ++ natStr i.natAbs else "E+" ++ natStr i.natAbs

/-- `str()` of a finite `Decimal`, following `Decimal.__str__`: plain
positional notation when the exponent is at most zero and the adjusted
exponent is at least -6, scientific notation otherwise. -/
def decStr (d : Dec) : String :=
  let sign := if d.sign then "-" else ""
  let digits := natStr d.coeff
  let n : Int := (digits.length : Int)
  let leftdigits : Int := d.exp + n
  let dotplace : Int :=
    if d.exp ≤ 0 && leftdigits > -6 then leftdigits else 1
  let intpart : String :=
    if dotplace ≤ 0 then "0"
    else if dotplace ≥ n then digits ++ String.mk (List.replicate (dotplace - n).toNat '0')
    else String.mk (digits.data.take dotplace.toNat)
  let fracpart : String :=
    if dotplace ≤ 0 then "." ++ String.mk (List.replicate (-dotplace).toNat '0') ++ digits
    else if dotplace ≥ n then ""
    else "." ++ String.mk (digits.data.drop dotplace.toNat)
  let exppart : String :=
    if leftdigits = dotplace then "" else expStr (leftdigits - dotplace)
  sign ++ intpart ++ fracpart ++ exppart

/-- `str()` of any `Decimal` value. -/
def decValueStr : DecValue → String
  | DecValue.fin d => decStr d
  | DecValue.inf sign => (if sign then "-" else "") ++ "Infinity"
  | DecValue.nan sign signaling payload =>
    (if sign then "-" else "") ++ (if signaling then "sNaN" else "NaN") ++
    (if payload = 0 then "" else natStr payload)

/-- `GenericCSVImporter.to_beancount`: one text block per transaction with
the header line, the posting line when an account is configured, and one
comment line per metadata entry, joined by newlines. -/
def to_beancount (cfg : Config) (txns : List Txn) : List String :=
  txns.map (fun txn =>
    let headerLine :=
      strftimeISO txn.date ++ " * \"" ++ cfg.institution ++ "\" \"" ++ pyStrOpt txn.narration ++ "\""
    let postingLines : List String :=
      if cfg.account ≠ "" then
        ["  " ++ cfg.account ++ "  " ++ decValueStr txn.amount ++ " USD"]
      else []
    let metaLines : List String :=
      match txn.meta with
      | none => []
      | some m => m.map (fun kv => "  ; " ++ kv.1 ++ ": " ++ pyStrOpt kv.2)
    String.intercalate "\n" (headerLine :: (postingLines ++ metaLines)))

/-! ## `InflationPlugin` (`src/plugins/inflation.py`)

Decimal context arithmetic at the default precision of 28 significant
digits.  `_fix` rounding of arithmetic results uses the context default
`ROUND_HALF_EVEN`; `quantize` is called by the plugin with
`ROUND_HALF_UP` explicitly. -/

/-- Strip trailing zeros of an exact division result towards the ideal
exponent (the `while` loop of `Decimal.__truediv__` for exact quotients).
Fuel bounds the loop; `numDigits coeff` iterations always suffice for a
nonzero coefficient. -/
def stripExactAux : Nat → Nat → Int → Int → Nat × Int
  | 0, c, e, _ => (c, e)
  | fuel + 1, c, e, ideal =>
    if e < ideal && c % 10 = 0 then stripExactAux fuel (c / 10) (e + 1) ideal
    else (c, e)

/-- Round a coefficient/exponent pair to at most 28 significant digits
with `ROUND_HALF_EVEN`, as `Decimal._fix` does for arithmetic results in
the default context. -/
def fix28 (sign : Bool) (c : Nat) (e : Int) : Dec :=
  let nd := numDigits c
  if nd ≤ 28 then ⟨sign, c, e⟩
  else
    let drop := nd - 28
    let divisor := 10 ^ drop
    let q := c / divisor
    let r := c % divisor
    let half := 5 * 10 ^ (drop - 1)
    let q2 :=
      if r > half then q + 1
      else if r < half then q
      else if q % 2 = 1 then q + 1 else q
    if numDigits q2 > 28 then ⟨sign, q2 / 10, e + drop + 1⟩ else ⟨sign, q2, e + drop⟩

/-- `Decimal.__truediv__` in the default context: division by zero raises
(`InvalidOperation` for 0/0, else `DivisionByZero`); otherwise the
quotient is computed with one extra digit beyond the precision, marked
inexact via the final-digit adjustment, and rounded by `_fix`; an exact
quotient is instead reduced towards the ideal exponent. -/
def decDiv (a b : Dec) : Except PyErr Dec :=
  if b.coeff = 0 then
    if a.coeff = 0 then Except.error PyErr.invalidOperation
    else Except.error PyErr.divisionByZero
  else
    let sign := a.sign != b.sign
    if a.coeff = 0 then Except.ok (fix28 sign 0 (a.exp - b.exp))
    else
      let shift : Int := (numDigits b.coeff : Int) - (numDigits a.coeff : Int) + 29
      let bigA := if shift ≥ 0 then a.coeff * 10 ^ shift.toNat else a.coeff
      let bigB := if shift ≥ 0 then b.coeff else b.coeff * 10 ^ (-shift).toNat
      let q := bigA / bigB
      let r := bigA % bigB
      let exp := a.exp - b.exp - shift
      if r ≠ 0 then
        Except.ok (fix28 sign (if q % 5 = 0 then q + 1 else q) exp)
      else
        let stripped := stripExactAux (numDigits q) q exp (a.exp - b.exp)
        Except.ok (fix28 sign stripped.1 stripped.2)

/-- Signed integer value of the coefficient of a decimal at a reference
exponent `e` (which must be at most the own exponent). -/
def scaledInt (d : Dec) (e : Int) : Int :=
  (if d.sign then -1 else 1) * (d.coeff : Int) * (10 : Int) ^ (d.exp - e).toNat

/-- `Decimal.__sub__` in the default context: the exact difference,
rounded to 28 significant digits by `_fix` (`ROUND_HALF_EVEN`).  The
magnitude shortcut Python applies for wildly different exponents is
value-preserving by construction and not separately modelled. -/
def decSub (a b : Dec) : Dec :=
  let e := min a.exp b.exp
  let s := scaledInt a e - scaledInt b e
  fix28 (decide (s < 0)) s.natAbs e

/-- `Decimal.quantize(Decimal('0.01') or Decimal('0.0001'), ROUND_HALF_UP)`:
rescale to the target exponent, rounding half away from zero, raising
`InvalidOperation` when the result would exceed 28 digits. -/
def decQuantize (a : Dec) (texp : Int) : Except PyErr Dec :=
  if a.exp ≥ texp then
    let c := a.coeff * 10 ^ (a.exp - texp).toNat
    if numDigits c > 28 then Except.error PyErr.invalidOperation
    else Except.ok ⟨a.sign, c, texp⟩
  else
    let drop := (texp - a.exp).toNat
    let divisor := 10 ^ drop
    let q := a.coeff / divisor
    let r := a.coeff % divisor
    let q2 := if 2 * r ≥ divisor then q + 1 else q
    if numDigits q2 > 28 then Except.error PyErr.invalidOperation
    else Except.ok ⟨a.sign, q2, texp⟩

/-- Sort key embedding the comparison of Python `date` objects: for
calendar-valid dates (month at most 12, day at most 31) it orders
exactly like the lexicographic (year, month, day) comparison. -/
def dateKey (d : PyDate) : Nat := (d.year * 13 + d.month) * 32 + d.day

/-- Order on CPI items used by `sorted(cpi_data.items())` (keys are
distinct in a dictionary, so the date key decides). -/
def itemLe (p q : PyDate × Dec) : Prop := dateKey p.1 ≤ dateKey q.1

instance : DecidableRel itemLe := fun _ _ => Nat.decLe _ _

instance : IsTotal (PyDate × Dec) itemLe := ⟨fun a b => Nat.le_total (dateKey a.1) (dateKey b.1)⟩

instance : IsTrans (PyDate × Dec) itemLe := ⟨fun _ _ _ h h2 => Nat.le_trans h h2⟩

/-- `sorted(cpi_data.items())`. -/
def sortItems (l : List (PyDate × Dec)) : List (PyDate × Dec) :=
  List.insertionSort itemLe l

/-- Order on dates used by `sorted(cpi_data.keys())`. -/
def dateLe (p q : PyDate) : Prop := dateKey p ≤ dateKey q

instance : DecidableRel dateLe := fun _ _ => Nat.decLe _ _

instance : IsTotal PyDate dateLe := ⟨fun a b => Nat.le_total (dateKey a) (dateKey b)⟩

instance : IsTrans PyDate dateLe := ⟨fun _ _ _ h h2 => Nat.le_trans h h2⟩

/-- Days in the months before month `m` of year `y`. -/
def daysBeforeMonth (y m : Nat) : Nat :=
  (([31, if isLeap y then 29 else 28, 31, 30, 31, 30, 31, 31, 30, 31, 30, 31].take (m - 1)).foldl (· + ·) 0)

/-- Proleptic Gregorian ordinal of a date, `date.toordinal()`. -/
def toOrdinal (d : PyDate) : Int :=
  (365 * (d.year - 1) + (d.year - 1) / 4 - (d.year - 1) / 100 + (d.year - 1) / 400
    + daysBeforeMonth d.year d.month + d.day : Nat)

/-- Day distance `abs((d - base).days)` between two dates. -/
def dayDist (d base : PyDate) : Nat := (toOrdinal d - toOrdinal base).natAbs

/-- `min(sorted_dates, key=lambda d: abs((d - base_date).days))`: the
first date of the sorted key list at minimal day distance.  The empty
case is unreachable (`cpi_data` is nonempty when this runs). -/
def closestDate (ds : List PyDate) (base : PyDate) : PyDate :=
  match ds with
  | [] => base
  | d :: rest => rest.foldl (fun best x => if dayDist x base < dayDist best base then x else best) d

/-- One generated price entry (the dictionary built by `generate_prices`). -/
structure PriceEntry where
  date : PyDate
  commodity : String
  base_currency : String
  value : Dec
  deriving DecidableEq, Repr

/-- The effective base date of `generate_prices`: the given one when it is
a key of the CPI data, otherwise the closest key by day distance. -/
def effectiveBaseDate (cpi_data : List (PyDate × Dec)) (base_date : PyDate) : PyDate :=
  if (cpi_data.lookup base_date).isSome then base_date
  else closestDate (List.insertionSort dateLe (cpi_data.map Prod.fst)) base_date

/-- The base CPI value `generate_prices` divides by: the CPI at the
effective base date (the `getD` default is unreachable because the
effective base date is always a key). -/
def base_cpi_of (cpi_data : List (PyDate × Dec)) (base_date : PyDate) : Dec :=
  (cpi_data.lookup (effectiveBaseDate cpi_data base_date)).getD ⟨false, 0, 0⟩

/-- The loop body of `generate_prices`: divide the CPI of the item by the
base CPI in the 28-digit context and quantize to two decimal places with
`ROUND_HALF_UP`. -/
def priceStep (commodity base_currency : String) (base_cpi : Dec)
    (item : PyDate × Dec) : Except PyErr PriceEntry := do
  let q ← decDiv item.2 base_cpi
  let v ← decQuantize q (-2)
  Except.ok ⟨item.1, commodity, base_currency, v⟩

/-- `InflationPlugin.generate_prices`: empty data gives no entries;
otherwise every CPI item, in ascending date order, yields an entry whose
value is the 28-digit decimal quotient by the base CPI quantized to two
decimal places with `ROUND_HALF_UP`. -/
def generate_prices (commodity base_currency : String)
    (cpi_data : List (PyDate × Dec)) (base_date : PyDate) :
    Except PyErr (List PriceEntry) :=
  if cpi_data.isEmpty then Except.ok []
  else
    exceptMapM (priceStep commodity base_currency (base_cpi_of cpi_data base_date))
      (sortItems cpi_data)

/-- `InflationPlugin.format_price_entry`. -/
def format_price_entry (e : PriceEntry) : String :=
  strftimeISO e.date ++ " price " ++ e.commodity ++ " " ++ decStr e.value ++ " " ++ e.base_currency

/-- `InflationPlugin.calculate_inflation_rate`: a zero starting CPI short
circuits to `Decimal('0')` (a `Decimal` is numerically zero exactly when
its coefficient is zero); otherwise the rate is the 28-digit decimal
quotient of the difference, quantized to four decimal places with
`ROUND_HALF_UP`. -/
def calculate_inflation_rate (cpi_start cpi_end : Dec) : Except PyErr Dec :=
  if cpi_start.coeff = 0 then Except.ok ⟨false, 0, 0⟩
  else do
    let q ← decDiv (decSub cpi_end cpi_start) cpi_start
    decQuantize q (-4)

/-! ## Derived definitions used by the theorems -/

/-- The row dictionaries a `parse` call processes (empty when the skip
count reaches the line count). -/
def fileRows (cfg : Config) (lines : List String) : List Row :=
  if cfg.skip_header_lines ≥ lines.length then []
  else
    rowDicts (csvSplit (lines.getD cfg.skip_header_lines ""))
      (lines.drop (cfg.skip_header_lines + 1))

/-- `parse` is the per-row mapping over the file rows, with the first
failure aborting everything. -/
theorem parse_eq_mapM (cfg : Config) (lines : List String) :
    parse cfg lines = exceptMapM (parse_row cfg) (fileRows cfg lines) := by
  unfold parse fileRows
  by_cases h : cfg.skip_header_lines ≥ lines.length
  · rw [if_pos h, if_pos h]; rfl
  · rw [if_neg h, if_neg h]

/-! ## Helper lemmas -/

theorem lookup_mem {α β : Type} [DecidableEq α] {l : List (α × β)} {k : α} {v : β}
    (h : List.lookup k l = some v) : (k, v) ∈ l := by
  induction l with
  | nil => cases h
  | cons p rest ih =>
    obtain ⟨pk, pv⟩ := p
    rw [List.lookup] at h
    cases hk : k == pk with
    | true =>
      rw [hk] at h
      injection h with h
      have hkp : k = pk := eq_of_beq hk
      rw [hkp, ← h]
      exact List.mem_cons_self (pk, pv) rest
    | false =>
      rw [hk] at h
      exact List.mem_cons_of_mem _ (ih h)

theorem exceptMapM_ok_length {α β : Type} {f : α → Except PyErr β} {l : List α} {ys : List β}
    (h : exceptMapM f l = .ok ys) : ys.length = l.length := by
  induction l generalizing ys with
  | nil => cases h; rfl
  | cons x xs ih =>
    rw [exceptMapM] at h
    cases hx : f x with
    | error e => rw [hx] at h; cases h
    | ok y =>
      rw [hx] at h
      cases hxs : exceptMapM f xs with
      | error e => rw [hxs] at h; cases h
      | ok ys2 =>
        rw [hxs] at h
        injection h with h
        rw [← h]
        simp [ih hxs]

theorem exceptMapM_ok_get {α β : Type} {f : α → Except PyErr β} {l : List α} {ys : List β}
    (h : exceptMapM f l = .ok ys) :
    ∀ i (h1 : i < l.length) (h2 : i < ys.length),
      f (l.get ⟨i, h1⟩) = .ok (ys.get ⟨i, h2⟩) := by
  induction l generalizing ys with
  | nil => intro i h1; exact absurd h1 (Nat.not_lt_zero i)
  | cons x xs ih =>
    rw [exceptMapM] at h
    cases hx : f x with
    | error e => rw [hx] at h; cases h
    | ok y =>
      rw [hx] at h
      cases hxs : exceptMapM f xs with
      | error e => rw [hxs] at h; cases h
      | ok ys2 =>
        rw [hxs] at h
        injection h with h
        subst h
        intro i h1 h2
        cases i with
        | zero => exact hx
        | succ k => exact ih hxs k (Nat.lt_of_succ_lt_succ h1) (Nat.lt_of_succ_lt_succ h2)

theorem exceptMapM_error_first {α β : Type} {f : α → Except PyErr β} {l : List α}
    {i : Nat} {e : PyErr} (hi : i < l.length) (he : f (l.get ⟨i, hi⟩) = .error e)
    (hok : ∀ j (hj : j < i), ∃ y, f (l.get ⟨j, Nat.lt_trans hj hi⟩) = .ok y) :
    exceptMapM f l = .error e := by
  induction l generalizing i with
  | nil => exact absurd hi (Nat.not_lt_zero i)
  | cons x xs ih =>
    cases i with
    | zero =>
      have he2 : f x = Except.error e := he
      rw [exceptMapM, he2]
    | succ k =>
      obtain ⟨y, hy⟩ := hok 0 (Nat.succ_pos k)
      have hy2 : f x = Except.ok y := hy
      rw [exceptMapM, hy2]
      have hrec :=
        ih (Nat.lt_of_succ_lt_succ hi) he
          (fun j hj => hok (j + 1) (Nat.succ_lt_succ hj))
      rw [hrec]

theorem exceptMapM_ok_of_mem {α β : Type} {f : α → Except PyErr β} {l : List α} {ys : List β}
    (h : exceptMapM f l = .ok ys) : ∀ x ∈ l, ∃ y ∈ ys, f x = .ok y := by
  induction l generalizing ys with
  | nil => intro x hx; cases hx
  | cons z xs ih =>
    rw [exceptMapM] at h
    cases hx : f z with
    | error e => rw [hx] at h; cases h
    | ok y =>
      rw [hx] at h
      cases hxs : exceptMapM f xs with
      | error e => rw [hxs] at h; cases h
      | ok ys2 =>
        rw [hxs] at h
        injection h with h
        subst h
        intro x hmem
        cases hmem with
        | head => exact ⟨y, List.mem_cons_self y ys2, hx⟩
        | tail _ htail =>
          obtain ⟨w, hw, hfw⟩ := ih hxs x htail
          exact ⟨w, List.mem_cons_of_mem y hw, hfw⟩

theorem exceptMapM_mem_of_ok {α β : Type} {f : α → Except PyErr β} {l : List α} {ys : List β}
    (h : exceptMapM f l = .ok ys) : ∀ y ∈ ys, ∃ x ∈ l, f x = .ok y := by
  induction l generalizing ys with
  | nil => cases h; intro y hy; cases hy
  | cons z xs ih =>
    rw [exceptMapM] at h
    cases hx : f z with
    | error e => rw [hx] at h; cases h
    | ok y0 =>
      rw [hx] at h
      cases hxs : exceptMapM f xs with
      | error e => rw [hxs] at h; cases h
      | ok ys2 =>
        rw [hxs] at h
        injection h with h
        subst h
        intro y hy
        cases hy with
        | head => exact ⟨z, List.mem_cons_self z xs, hx⟩
        | tail _ htail =>
          obtain ⟨x, hxmem, hfx⟩ := ih hxs y htail
          exact ⟨x, List.mem_cons_of_mem z hxmem, hfx⟩

theorem decQuantize_error_eq {a : Dec} {t : Int} {e : PyErr}
    (h : decQuantize a t = .error e) : e = .invalidOperation := by
  simp only [decQuantize] at h
  repeat' split at h
  all_goals first
    | exact (Except.error.inj h).symm
    | cases h

theorem exists_ok_ite {c : Prop} [Decidable c] (x y : Dec) :
    ∃ r, (if c then Except.ok x else Except.ok y : Except PyErr Dec) = Except.ok r := by
  by_cases h : c
  · exact ⟨x, by rw [if_pos h]⟩
  · exact ⟨y, by rw [if_neg h]⟩

theorem decDiv_ok_of {x a : Dec} (h : a.coeff ≠ 0) : ∃ r, decDiv x a = .ok r := by
  by_cases hx : x.coeff = 0
  · exact ⟨fix28 (x.sign != a.sign) 0 (x.exp - a.exp),
      by simp only [decDiv, if_neg h, if_pos hx]⟩
  · simp only [decDiv, if_neg h, if_neg hx]
    exact exists_ok_ite _ _

/-! ## Claim theorems -/

/-- C2, counterexample: the ambiguous string `"03/04/2024"` is decided by
the second pattern `MM/DD/YYYY` and therefore parses to March 4 2024, not
to April 3 2024 as the claim states. -/
theorem parse_date_ambiguous_is_march_not_april :
    parse_date "03/04/2024" = .ok ⟨2024, 3, 4⟩ ∧
    (⟨2024, 3, 4⟩ : PyDate) ≠ (⟨2024, 4, 3⟩ : PyDate) := by
  exact ⟨by decide, by decide⟩

theorem parse_date_over_first {fmts : List DateFormat} {s : String} {d : PyDate}
    {i : Nat} (hi : i < fmts.length) (hm : tryFormat (fmts.get ⟨i, hi⟩) s = some d)
    (hnone : ∀ j (hj : j < i), tryFormat (fmts.get ⟨j, Nat.lt_trans hj hi⟩) s = none) :
    parse_date_over fmts s = .ok d := by
  induction fmts generalizing i with
  | nil => exact absurd hi (Nat.not_lt_zero i)
  | cons fmt rest ih =>
    cases i with
    | zero =>
      have hm2 : tryFormat fmt s = some d := hm
      rw [parse_date_over, hm2]
    | succ k =>
      have h0 : tryFormat fmt s = none := hnone 0 (Nat.succ_pos k)
      rw [parse_date_over, h0]
      exact ih (Nat.lt_of_succ_lt_succ hi) hm
        (fun j hj => hnone (j + 1) (Nat.succ_lt_succ hj))

/-- C2 (amended): `_parse_date` tries exactly the six patterns
`YYYY-MM-DD`, `MM/DD/YYYY`, `DD/MM/YYYY`, `YYYY/MM/DD`, `DD-MM-YYYY`,
`MM-DD-YYYY` in that fixed order and returns the calendar date from the
first pattern that matches; for a string matching several patterns the
earliest pattern decides, so `"03/04/2024"` parses to March 4 2024 (the
month-first slash pattern wins over the day-first one) and `"2024-01-15"`
parses to January 15 2024. -/
theorem parse_date_first_match_wins {s : String} {d : PyDate} {i : Nat}
    (hi : i < dateFormats.length) (hm : tryFormat (dateFormats.get ⟨i, hi⟩) s = some d)
    (hnone : ∀ j (hj : j < i), tryFormat (dateFormats.get ⟨j, Nat.lt_trans hj hi⟩) s = none) :
    parse_date s = .ok d :=
  parse_date_over_first hi hm hnone

theorem parse_date_first_match_wins_witness :
    parse_date "03/04/2024" = .ok ⟨2024, 3, 4⟩ ∧
    parse_date "2024-01-15" = .ok ⟨2024, 1, 15⟩ := by
  constructor
  · have hi : (1 : Nat) < dateFormats.length := by decide
    refine parse_date_first_match_wins (i := 1) hi ?_ ?_
    · show tryFormat ⟨FieldOrder.mdy, '/'⟩ "03/04/2024" = some ⟨2024, 3, 4⟩
      decide
    · intro j hj
      interval_cases j
      show tryFormat ⟨FieldOrder.ymd, '-'⟩ "03/04/2024" = none
      decide
  · have hi : (0 : Nat) < dateFormats.length := by decide
    refine parse_date_first_match_wins (i := 0) hi ?_ ?_
    · show tryFormat ⟨FieldOrder.ymd, '-'⟩ "2024-01-15" = some ⟨2024, 1, 15⟩
      decide
    · intro j hj
      exact absurd hj (Nat.not_lt_zero j)

/-- C3, counterexample: for the mapping (date `Date`, narration
`Description`, amount `Amount`) and the data row `2024-01-15` (shorter
than the three-field header), `_parse_row` raises `TypeError` (the `None`
fill value reaches `re.sub`), not a missing-column `KeyError` naming a
configured field. -/
theorem parse_row_short_row_typeerror :
    parse_row
        { institution := "Chase", account := "", skip_header_lines := 0,
          dateCol := "Date", narrationCol := "Description", amountCol := "Amount",
          metaCols := none }
        (buildRow ["Date", "Description", "Amount"] ["2024-01-15"]) =
      .error .typeError ∧
    ∀ name,
      parse_row
          { institution := "Chase", account := "", skip_header_lines := 0,
            dateCol := "Date", narrationCol := "Description", amountCol := "Amount",
            metaCols := none }
          (buildRow ["Date", "Description", "Amount"] ["2024-01-15"]) ≠
        .error (.keyError name) := by
  have h :
      parse_row
          { institution := "Chase", account := "", skip_header_lines := 0,
            dateCol := "Date", narrationCol := "Description", amountCol := "Amount",
            metaCols := none }
          (buildRow ["Date", "Description", "Amount"] ["2024-01-15"]) =
        .error .typeError := by decide
  refine ⟨h, fun name hh => ?_⟩
  rw [h] at hh
  exact PyErr.noConfusion (Except.error.inj hh)

/-- C3 (amended): a configured date, narration or amount field name that
is absent from the row dictionary (absent from the header) raises a
`KeyError` naming the configured field, in lookup order date, narration,
amount; a field filled with `None` because the data row was shorter than
the header instead raises `TypeError` at the date or amount stage (and a
`None` narration is stored without error); when the three targeted
lookups succeed and parse, the row parses successfully whatever other
fields are absent -- metadata extraction is total, so the absence of a
field the mapping does not target is never an error. -/
theorem parse_row_missing_field_behavior (cfg : Config) (row : Row) :
    (row.lookup cfg.dateCol = none →
      parse_row cfg row = .error (.keyError cfg.dateCol)) ∧
    (row.lookup cfg.dateCol = some none → parse_row cfg row = .error .typeError) ∧
    (∀ s d, row.lookup cfg.dateCol = some (some s) → parse_date s = .ok d →
      row.lookup cfg.narrationCol = none →
      parse_row cfg row = .error (.keyError cfg.narrationCol)) ∧
    (∀ s d n, row.lookup cfg.dateCol = some (some s) → parse_date s = .ok d →
      row.lookup cfg.narrationCol = some n → row.lookup cfg.amountCol = none →
      parse_row cfg row = .error (.keyError cfg.amountCol)) ∧
    (∀ s d n, row.lookup cfg.dateCol = some (some s) → parse_date s = .ok d →
      row.lookup cfg.narrationCol = some n → row.lookup cfg.amountCol = some none →
      parse_row cfg row = .error .typeError) ∧
    (∀ s d n a v, row.lookup cfg.dateCol = some (some s) → parse_date s = .ok d →
      row.lookup cfg.narrationCol = some n → row.lookup cfg.amountCol = some (some a) →
      parse_amount a = .ok v →
      parse_row cfg row =
        .ok { date := d, narration := n, amount := v, meta := metaOf cfg row }) := by
  refine ⟨?_, ?_, ?_, ?_, ?_, ?_⟩
  · intro h1; simp only [parse_row, h1]
  · intro h1; simp only [parse_row, h1]
  · intro s d h1 h2 h3; simp only [parse_row, h1, h2, h3]
  · intro s d n h1 h2 h3 h4; simp only [parse_row, h1, h2, h3, h4]
  · intro s d n h1 h2 h3 h4; simp only [parse_row, h1, h2, h3, h4]
  · intro s d n a v h1 h2 h3 h4 h5; simp only [parse_row, h1, h2, h3, h4, h5]

theorem parse_row_missing_field_behavior_witness :
    parse_row
        { institution := "Z", account := "", skip_header_lines := 0,
          dateCol := "Datum", narrationCol := "Description", amountCol := "Amount",
          metaCols := none }
        (buildRow ["Date", "Description", "Amount"] ["2024-01-15", "x", "1.00"]) =
      .error (.keyError "Datum") ∧
    parse_row
        { institution := "Z", account := "", skip_header_lines := 0,
          dateCol := "Date", narrationCol := "Description", amountCol := "Amount",
          metaCols := some ["order_id"] }
        (buildRow ["Date", "Description", "Amount"] ["2024-01-15", "x", "1.00"]) =
      .ok { date := ⟨2024, 1, 15⟩, narration := some "x",
            amount := .fin ⟨false, 100, -2⟩, meta := some [] } := by
  constructor
  · exact (parse_row_missing_field_behavior _ _).1 (by decide)
  · exact (parse_row_missing_field_behavior _ _).2.2.2.2.2 "2024-01-15" ⟨2024, 1, 15⟩
      (some "x") "1.00" (.fin ⟨false, 100, -2⟩)
      (by decide) (by decide) (by decide) (by decide) (by decide)

/-- C4: a row normalization failure (here at index `i`, every earlier row
parsing fine) makes the whole `parse` return exactly that error, and no
transaction list at all is returned to the caller. -/
theorem parse_file_atomic (cfg : Config) (lines : List String) (i : Nat) (e : PyErr)
    (hi : i < (fileRows cfg lines).length)
    (he : parse_row cfg ((fileRows cfg lines).get ⟨i, hi⟩) = .error e)
    (hok : ∀ j (hj : j < i),
      ∃ t, parse_row cfg ((fileRows cfg lines).get ⟨j, Nat.lt_trans hj hi⟩) = .ok t) :
    parse cfg lines = .error e ∧ ∀ ts, parse cfg lines ≠ .ok ts := by
  have h1 : parse cfg lines = .error e := by
    rw [parse_eq_mapM]
    exact exceptMapM_error_first hi he hok
  exact ⟨h1, fun ts hts => by rw [h1] at hts; cases hts⟩

theorem parse_file_atomic_witness :
    parse
        { institution := "Chase", account := "", skip_header_lines := 0,
          dateCol := "Date", narrationCol := "Description", amountCol := "Amount",
          metaCols := none }
        ["Date,Description,Amount", "2024-01-15,Grocery,1.00", "notadate,Gas,2.00"] =
      .error .valueError := by
  have hi :
      1 <
        (fileRows
            { institution := "Chase", account := "", skip_header_lines := 0,
              dateCol := "Date", narrationCol := "Description", amountCol := "Amount",
              metaCols := none }
            ["Date,Description,Amount", "2024-01-15,Grocery,1.00", "notadate,Gas,2.00"]).length := by
    decide
  refine (parse_file_atomic _ _ 1 .valueError hi ?_ ?_).1
  · show parse_row
        { institution := "Chase", account := "", skip_header_lines := 0,
          dateCol := "Date", narrationCol := "Description", amountCol := "Amount",
          metaCols := none }
        (buildRow ["Date", "Description", "Amount"] ["notadate", "Gas", "2.00"]) =
      Except.error PyErr.valueError
    decide
  · intro j hj
    interval_cases j
    refine ⟨{ date := ⟨2024, 1, 15⟩, narration := some "Grocery",
              amount := .fin ⟨false, 100, -2⟩, meta := none }, ?_⟩
    show parse_row
        { institution := "Chase", account := "", skip_header_lines := 0,
          dateCol := "Date", narrationCol := "Description", amountCol := "Amount",
          metaCols := none }
        (buildRow ["Date", "Description", "Amount"] ["2024-01-15", "Grocery", "1.00"]) =
      Except.ok
        { date := ⟨2024, 1, 15⟩, narration := some "Grocery",
          amount := .fin ⟨false, 100, -2⟩, meta := none }
    decide

/-- C5: for every canonical transaction, `to_beancount` emits exactly the
header line `<date> * "<institution>" "<narration>"`, then the posting
line with two-space indent, account, amount and the hardcoded `USD`
exactly when an account identifier was configured (a nonempty
`account`), then one comment line per metadata entry in the mapping
iteration order. -/
theorem to_beancount_entry_shape (cfg : Config) (txns : List Txn) :
    to_beancount cfg txns = txns.map (fun t =>
      String.intercalate "\n"
        ((strftimeISO t.date ++ " * \"" ++ cfg.institution ++ "\" \"" ++ pyStrOpt t.narration ++ "\"")
          :: ((if cfg.account ≠ "" then
                ["  " ++ cfg.account ++ "  " ++ decValueStr t.amount ++ " USD"]
              else [])
            ++ (match t.meta with
                | none => []
                | some m => m.map (fun kv => "  ; " ++ kv.1 ++ ": " ++ pyStrOpt kv.2))))) :=
  rfl

/-- C6: a skip count at or beyond the number of lines yields the empty
transaction sequence without error; a skip count `N` below it makes line
`N` (0-indexed) the header row and all following lines the data rows. -/
theorem parse_skip_header_lines (cfg : Config) (lines : List String) :
    (cfg.skip_header_lines ≥ lines.length → parse cfg lines = .ok []) ∧
    (∀ h : cfg.skip_header_lines < lines.length,
      parse cfg lines =
        exceptMapM (parse_row cfg)
          (rowDicts (csvSplit (lines.get ⟨cfg.skip_header_lines, h⟩))
            (lines.drop (cfg.skip_header_lines + 1)))) := by
  constructor
  · intro h; unfold parse; rw [if_pos h]
  · intro h
    unfold parse
    rw [if_neg (by omega)]
    have : lines.getD cfg.skip_header_lines "" = lines.get ⟨cfg.skip_header_lines, h⟩ := by
      rw [List.getD_eq_getElem?_getD, List.getElem?_eq_getElem h]
      rfl
    rw [this]

theorem parse_skip_header_lines_witness :
    parse
        { institution := "T", account := "", skip_header_lines := 5,
          dateCol := "Date", narrationCol := "D", amountCol := "A", metaCols := none }
        ["only", "three", "lines"] =
      .ok [] ∧
    parse
        { institution := "T", account := "", skip_header_lines := 1,
          dateCol := "Date", narrationCol := "D", amountCol := "A", metaCols := none }
        ["junk", "Date,D,A", "2024-01-15,x,1"] =
      exceptMapM
        (parse_row
          { institution := "T", account := "", skip_header_lines := 1,
            dateCol := "Date", narrationCol := "D", amountCol := "A", metaCols := none })
        (rowDicts (csvSplit "Date,D,A") ["2024-01-15,x,1"]) := by
  constructor
  · exact (parse_skip_header_lines _ _).1 (by decide)
  · exact (parse_skip_header_lines _ _).2 (by decide)

/-- C7, counterexample: the strings `NaN` and `Infinity` consist of
residual non-numeric content after stripping, yet `_parse_amount` accepts
them (the `Decimal` constructor builds NaN and infinity values) instead
of raising a format error. -/
theorem parse_amount_nan_infinity_accepted :
    parse_amount "NaN" = .ok (.nan false false 0) ∧
    parse_amount "Infinity" = .ok (.inf false) ∧
    ∀ e, parse_amount "NaN" ≠ .error e := by
  refine ⟨by decide, by decide, fun e h => ?_⟩
  rw [(by decide : parse_amount "NaN" = .ok (.nan false false 0))] at h
  cases h

/-- C7 (amended): an amount whose cleaned and negation-adjusted text the
`Decimal` constructor rejects (any residue that is not a signed decimal
numeral, possibly with exponent or underscores, and not a NaN or
Infinity form) raises `InvalidOperation`; it never yields a value, so an
unparseable amount is never coerced to zero or null.  NaN and Infinity
forms, however, are accepted as values. -/
theorem parse_amount_rejects_bad_residue (s : List Char)
    (h : parseDecimal (parenAdjust (cleanAmount s)) = none) :
    parse_amount_chars s = .error .invalidOperation ∧
    ∀ v, parse_amount_chars s ≠ .ok v := by
  have h1 : parse_amount_chars s = .error .invalidOperation := by
    unfold parse_amount_chars
    rw [h]
  exact ⟨h1, fun v hv => by rw [h1] at hv; cases hv⟩

theorem parse_amount_rejects_bad_residue_witness :
    parse_amount_chars "12abc".data = .error .invalidOperation :=
  (parse_amount_rejects_bad_residue "12abc".data (by decide)).1

/-- C10, counterexample: `calculate_inflation_rate` is not total over all
`Decimal` inputs -- for `cpi_start = 1` and `cpi_end = 1E+30` the final
`quantize` needs more digits than the 28-digit context precision and
raises `InvalidOperation`. -/
theorem calc_inflation_rate_not_total :
    calculate_inflation_rate ⟨false, 1, 0⟩ ⟨false, 1, 30⟩ = .error .invalidOperation ∧
    ∀ r, calculate_inflation_rate ⟨false, 1, 0⟩ ⟨false, 1, 30⟩ ≠ .ok r := by
  have h : calculate_inflation_rate ⟨false, 1, 0⟩ ⟨false, 1, 30⟩ = .error .invalidOperation := by
    decide
  exact ⟨h, fun r hr => by rw [h] at hr; cases hr⟩

/-- C10 (amended): a numerically zero `cpi_start` (zero coefficient)
short-circuits to `Decimal(0)` before any division, and the function can
never raise `DivisionByZero`; it is not, however, total -- the final
`quantize` can raise `InvalidOperation` when the rate needs more than 28
digits. -/
theorem calc_inflation_rate_zero_guard (a b : Dec) :
    (a.coeff = 0 → calculate_inflation_rate a b = .ok ⟨false, 0, 0⟩) ∧
    calculate_inflation_rate a b ≠ .error .divisionByZero := by
  constructor
  · intro h; unfold calculate_inflation_rate; rw [if_pos h]
  · unfold calculate_inflation_rate
    by_cases h : a.coeff = 0
    · rw [if_pos h]; intro hh; cases hh
    · rw [if_neg h]
      obtain ⟨r, hr⟩ := decDiv_ok_of (x := decSub b a) h
      rw [hr]
      show decQuantize r (-4) ≠ .error .divisionByZero
      intro hq
      cases decQuantize_error_eq hq

theorem calc_inflation_rate_zero_guard_witness :
    calculate_inflation_rate ⟨false, 0, -1⟩ ⟨false, 3060, -1⟩ = .ok ⟨false, 0, 0⟩ ∧
    calculate_inflation_rate ⟨false, 3000, -1⟩ ⟨false, 3060, -1⟩ ≠ .error .divisionByZero :=
  ⟨(calc_inflation_rate_zero_guard _ _).1 rfl, (calc_inflation_rate_zero_guard _ _).2⟩

/-! ## Lemmas for the inflation claims -/

theorem except_bind_error {α β : Type} (e : PyErr) (f : α → Except PyErr β) :
    (Except.error e : Except PyErr α) >>= f = Except.error e := rfl

theorem except_bind_ok {α β : Type} (a : α) (f : α → Except PyErr β) :
    (Except.ok a : Except PyErr α) >>= f = f a := rfl

theorem decDiv_self {c : Dec} (hc : c.coeff ≠ 0) : decDiv c c = Except.ok ⟨false, 1, 0⟩ := by
  have hpos : 0 < c.coeff := Nat.pos_of_ne_zero hc
  have ht : (29 : Int).toNat = 29 := rfl
  have hq : c.coeff * 100000000000000000000000000000 / c.coeff =
      100000000000000000000000000000 := Nat.mul_div_cancel_left _ hpos
  have hr : c.coeff * 100000000000000000000000000000 % c.coeff = 0 := Nat.mul_mod_right _ _
  have hstrip :
      stripExactAux (numDigits (100000000000000000000000000000 : Nat))
        100000000000000000000000000000 (-29) 0 = (1, 0) := by decide
  have hfix : fix28 false 1 0 = ⟨false, 1, 0⟩ := by decide
  simp only [decDiv, if_neg hc, bne_self_eq_false, sub_self, zero_add]
  norm_num [ht, hq, hr, hstrip, hfix]

theorem priceStep_ok_shape {comm bc : String} {base : Dec} {x : PyDate × Dec}
    {e : PriceEntry} (h : priceStep comm bc base x = .ok e) :
    e.commodity = comm ∧ e.base_currency = bc ∧ e.date = x.1 ∧
    (do
      let q ← decDiv x.2 base
      decQuantize q (-2) : Except PyErr Dec) = .ok e.value := by
  unfold priceStep at h
  cases hd : decDiv x.2 base with
  | error er =>
    rw [hd, except_bind_error] at h
    cases h
  | ok q =>
    rw [hd, except_bind_ok] at h
    cases hquant : decQuantize q (-2) with
    | error er =>
      rw [hquant, except_bind_error] at h
      cases h
    | ok v =>
      rw [hquant, except_bind_ok] at h
      injection h with h
      subst h
      refine ⟨rfl, rfl, rfl, ?_⟩
      rw [except_bind_ok]
      exact hquant

theorem generate_prices_nonempty (comm bc : String) (cpi : List (PyDate × Dec))
    (bd : PyDate) (h : cpi.isEmpty = false) :
    generate_prices comm bc cpi bd =
      exceptMapM (priceStep comm bc (base_cpi_of cpi bd)) (sortItems cpi) := by
  unfold generate_prices
  rw [h, if_neg Bool.false_ne_true]

/-- C9, counterexample: a CPI mapping that contains the base date with a
nonzero CPI can still produce no base-date entry at all, because the
whole generation aborts when some other ratio fails to quantize within
the 28-digit precision (CPI `1E+30` against base CPI `1`). -/
theorem generate_prices_can_abort_wholesale :
    generate_prices "I-USD" "USD"
        [(⟨2024, 1, 1⟩, ⟨false, 1, 0⟩), (⟨2024, 2, 1⟩, ⟨false, 1, 30⟩)] ⟨2024, 1, 1⟩ =
      .error .invalidOperation ∧
    ∀ entries,
      generate_prices "I-USD" "USD"
          [(⟨2024, 1, 1⟩, ⟨false, 1, 0⟩), (⟨2024, 2, 1⟩, ⟨false, 1, 30⟩)] ⟨2024, 1, 1⟩ ≠
        .ok entries := by
  have h :
      generate_prices "I-USD" "USD"
          [(⟨2024, 1, 1⟩, ⟨false, 1, 0⟩), (⟨2024, 2, 1⟩, ⟨false, 1, 30⟩)] ⟨2024, 1, 1⟩ =
        .error .invalidOperation := by decide
  exact ⟨h, fun entries he => by rw [h] at he; cases he⟩

/-- C9 (amended): whenever `generate_prices` succeeds on a CPI mapping
(distinct dates, embedded as distinct date keys) that contains the base
date with a CPI of nonzero coefficient, the produced entries contain one
for the base date itself whose value is exactly the decimal `1.00`
(coefficient 100, exponent -2), and the entries are in strictly
ascending date order; generation can instead fail wholesale when another
ratio overflows the quantize precision. -/
theorem generate_prices_base_entry (comm bc : String) (cpi : List (PyDate × Dec))
    (bd : PyDate) (c : Dec) (entries : List PriceEntry)
    (hmem : List.lookup bd cpi = some c) (hc : c.coeff ≠ 0)
    (hnodup : (cpi.map (fun p => dateKey p.1)).Nodup)
    (hok : generate_prices comm bc cpi bd = .ok entries) :
    (∃ e ∈ entries, e.date = bd ∧ e.value = ⟨false, 100, -2⟩) ∧
    List.Pairwise (fun e1 e2 => dateKey e1.date < dateKey e2.date) entries := by
  have hne : cpi.isEmpty = false := by
    cases cpi with
    | nil => cases hmem
    | cons p l => rfl
  have heff : effectiveBaseDate cpi bd = bd := by
    unfold effectiveBaseDate
    rw [if_pos]
    rw [hmem]
    rfl
  have hbase : base_cpi_of cpi bd = c := by
    unfold base_cpi_of
    rw [heff, hmem]
    rfl
  have hok2 : exceptMapM (priceStep comm bc c) (sortItems cpi) = .ok entries := by
    rw [← hbase, ← generate_prices_nonempty comm bc cpi bd hne]
    exact hok
  have hperm : List.Perm (sortItems cpi) cpi := List.perm_insertionSort itemLe cpi
  constructor
  · have hsortmem : (bd, c) ∈ sortItems cpi := hperm.mem_iff.mpr (lookup_mem hmem)
    obtain ⟨e, hemem, hfe⟩ := exceptMapM_ok_of_mem hok2 (bd, c) hsortmem
    have hshape := priceStep_ok_shape hfe
    have hval : e.value = ⟨false, 100, -2⟩ := by
      have h4 := hshape.2.2.2
      rw [decDiv_self hc, except_bind_ok] at h4
      have hq : decQuantize ⟨false, 1, 0⟩ (-2) = .ok ⟨false, 100, -2⟩ := by decide
      rw [hq] at h4
      exact (Except.ok.inj h4).symm
    exact ⟨e, hemem, hshape.2.2.1, hval⟩
  · have hlen : entries.length = (sortItems cpi).length := exceptMapM_ok_length hok2
    have hsorted : List.Sorted itemLe (sortItems cpi) := List.sorted_insertionSort itemLe cpi
    have hnodup2 : ((sortItems cpi).map (fun p => dateKey p.1)).Nodup :=
      ((hperm.map _).nodup_iff).mpr hnodup
    rw [List.pairwise_iff_getElem]
    intro i j hi hj hij
    have hi2 : i < (sortItems cpi).length := by omega
    have hj2 : j < (sortItems cpi).length := by omega
    have hdi : entries[i].date = (sortItems cpi)[i].1 :=
      (priceStep_ok_shape (exceptMapM_ok_get hok2 i hi2 hi)).2.2.1
    have hdj : entries[j].date = (sortItems cpi)[j].1 :=
      (priceStep_ok_shape (exceptMapM_ok_get hok2 j hj2 hj)).2.2.1
    have hle : itemLe (sortItems cpi)[i] (sortItems cpi)[j] :=
      List.pairwise_iff_getElem.mp hsorted i j hi2 hj2 hij
    have hne2 : dateKey (sortItems cpi)[i].1 ≠ dateKey (sortItems cpi)[j].1 := by
      intro heq
      have hik : i < ((sortItems cpi).map (fun p => dateKey p.1)).length := by
        rw [List.length_map]; exact hi2
      have hjk : j < ((sortItems cpi).map (fun p => dateKey p.1)).length := by
        rw [List.length_map]; exact hj2
      have hinj := @List.Nodup.getElem_inj_iff _ _ hnodup2 i hik j hjk
      rw [List.getElem_map, List.getElem_map] at hinj
      have := hinj.mp heq
      omega
    rw [hdi, hdj]
    exact lt_of_le_of_ne hle hne2

theorem generate_prices_base_entry_witness :
    (∃ e ∈ [(⟨⟨2024, 1, 1⟩, "I-USD", "USD", ⟨false, 100, -2⟩⟩ : PriceEntry),
            ⟨⟨2024, 2, 1⟩, "I-USD", "USD", ⟨false, 101, -2⟩⟩,
            ⟨⟨2024, 3, 1⟩, "I-USD", "USD", ⟨false, 102, -2⟩⟩],
      e.date = ⟨2024, 1, 1⟩ ∧ e.value = ⟨false, 100, -2⟩) ∧
    List.Pairwise (fun e1 e2 => dateKey e1.date < dateKey e2.date)
      [(⟨⟨2024, 1, 1⟩, "I-USD", "USD", ⟨false, 100, -2⟩⟩ : PriceEntry),
       ⟨⟨2024, 2, 1⟩, "I-USD", "USD", ⟨false, 101, -2⟩⟩,
       ⟨⟨2024, 3, 1⟩, "I-USD", "USD", ⟨false, 102, -2⟩⟩] :=
  generate_prices_base_entry "I-USD" "USD"
    [(⟨2024, 3, 1⟩, ⟨false, 3060, -1⟩), (⟨2024, 1, 1⟩, ⟨false, 3000, -1⟩),
     (⟨2024, 2, 1⟩, ⟨false, 3030, -1⟩)]
    ⟨2024, 1, 1⟩ ⟨false, 3000, -1⟩ _
    (by decide) (by decide) (by decide) (by decide)

/-! ## C8: generated price values and their format

The claim describes the value as the exact CPI ratio rounded half-up to
two decimal places.  The following two definitions follow the wording of
the specification (not the code) and are compared against the embedded
behaviour. -/

/-- Follows the specification wording: round a rational to a whole
number of cents with round-half-up (ties away from zero). -/
def specRoundHalfUpCents (q : Rat) : Int :=
  if 0 ≤ q then ⌊q * 100 + 1 / 2⌋ else -⌊-q * 100 + 1 / 2⌋

/-- Follows the specification wording: the claimed entry value, the
exact ratio of the CPI to the base CPI rounded to exactly two decimal
places using round-half-up. -/
def specPrice (cpi base : Dec) : Rat :=
  (specRoundHalfUpCents (cpi.val / base.val) : Rat) / 100

/-- C8, counterexample: the code divides in the 28-significant-digit
decimal context before quantizing, which double-rounds.  With base CPI
`2*10^30 + 1` and CPI `10^28` the exact ratio is just below `0.005`, so
the claimed exact round-half-up value is `0.00`; the 28-digit quotient
rounds up to exactly `0.005` and the emitted value is `0.01`. -/
theorem generate_prices_double_rounding :
    generate_prices "I-USD" "USD"
        [(⟨2024, 1, 1⟩, ⟨false, 2 * 10 ^ 30 + 1, 0⟩),
         (⟨2024, 2, 1⟩, ⟨false, 10 ^ 28, 0⟩)] ⟨2024, 1, 1⟩ =
      .ok [⟨⟨2024, 1, 1⟩, "I-USD", "USD", ⟨false, 100, -2⟩⟩,
           ⟨⟨2024, 2, 1⟩, "I-USD", "USD", ⟨false, 1, -2⟩⟩] ∧
    Dec.val ⟨false, 1, -2⟩ ≠
      specPrice ⟨false, 10 ^ 28, 0⟩ ⟨false, 2 * 10 ^ 30 + 1, 0⟩ := by
  constructor
  · decide
  · have hpow2 : ratPow10 (-2) = 1 / ((10 ^ 2 : Nat) : Rat) := rfl
    have hpow0 : ratPow10 0 = ((1 : Nat) : Rat) := rfl
    have hval : Dec.val ⟨false, 1, -2⟩ = 1 / 100 := by
      show (if (false : Bool) = true then (-1 : Rat) else 1) * ((1 : Nat) : Rat) * ratPow10 (-2)
        = 1 / 100
      rw [if_neg Bool.false_ne_true, hpow2]
      norm_num
    have hv1 : Dec.val ⟨false, 10 ^ 28, 0⟩ = ((10 : Rat) ^ 28) := by
      show (if (false : Bool) = true then (-1 : Rat) else 1) * ((10 ^ 28 : Nat) : Rat) * ratPow10 0
        = (10 : Rat) ^ 28
      rw [if_neg Bool.false_ne_true, hpow0]
      push_cast
      ring
    have hv2 : Dec.val ⟨false, 2 * 10 ^ 30 + 1, 0⟩ = (2 * (10 : Rat) ^ 30 + 1) := by
      show (if (false : Bool) = true then (-1 : Rat) else 1) * ((2 * 10 ^ 30 + 1 : Nat) : Rat)
          * ratPow10 0
        = 2 * (10 : Rat) ^ 30 + 1
      rw [if_neg Bool.false_ne_true, hpow0]
      push_cast
      ring
    have hbpos : (0 : Rat) < 2 * (10 : Rat) ^ 30 + 1 := by positivity
    have hq :
        Dec.val ⟨false, 10 ^ 28, 0⟩ / Dec.val ⟨false, 2 * 10 ^ 30 + 1, 0⟩ =
          (10 : Rat) ^ 28 / (2 * (10 : Rat) ^ 30 + 1) := by
      rw [hv1, hv2]
    have hge : (0 : Rat) ≤ (10 : Rat) ^ 28 / (2 * (10 : Rat) ^ 30 + 1) := by positivity
    have hlt :
        (10 : Rat) ^ 28 / (2 * (10 : Rat) ^ 30 + 1) * 100 < 1 / 2 := by
      rw [div_mul_eq_mul_div, div_lt_iff₀ hbpos]
      norm_num
    have hfloor :
        ⌊(10 : Rat) ^ 28 / (2 * (10 : Rat) ^ 30 + 1) * 100 + 1 / 2⌋ = 0 := by
      refine Int.floor_eq_iff.mpr ⟨?_, ?_⟩
      · push_cast
        positivity
      · push_cast
        linarith
    intro heq
    rw [hval] at heq
    unfold specPrice specRoundHalfUpCents at heq
    rw [hq, if_pos hge, hfloor] at heq
    norm_num at heq

/-- C8 (amended): every entry that a successful `generate_prices` run
produces corresponds to one CPI item: its date is the item date, its
commodity and currency are the given ones, its value is the 28-digit
decimal quotient of the item CPI by the effective base CPI quantized to
exactly two decimal places with `ROUND_HALF_UP` (coinciding with the
exact-ratio rounding except in double-rounding corner cases), and
`format_price_entry` renders it as
`<date:YYYY-MM-DD> price <commodity> <value> <currency>`. -/
theorem generate_prices_value_and_format (comm bc : String) (cpi : List (PyDate × Dec))
    (bd : PyDate) (entries : List PriceEntry)
    (hok : generate_prices comm bc cpi bd = .ok entries) :
    ∀ e ∈ entries, ∃ item ∈ cpi, e.date = item.1 ∧ e.commodity = comm ∧
      e.base_currency = bc ∧
      (do
        let q ← decDiv item.2 (base_cpi_of cpi bd)
        decQuantize q (-2) : Except PyErr Dec) = .ok e.value ∧
      format_price_entry e =
        strftimeISO e.date ++ " price " ++ comm ++ " " ++ decStr e.value ++ " " ++ bc := by
  intro e he
  by_cases hne : cpi.isEmpty = true
  · unfold generate_prices at hok
    rw [if_pos hne] at hok
    injection hok with hok
    rw [← hok] at he
    cases he
  · have hne2 : cpi.isEmpty = false := by
      revert hne
      cases cpi.isEmpty <;> simp
    rw [generate_prices_nonempty comm bc cpi bd hne2] at hok
    obtain ⟨x, hxmem, hfx⟩ := exceptMapM_mem_of_ok hok e he
    have hs := priceStep_ok_shape hfx
    refine ⟨x, (List.perm_insertionSort itemLe cpi).mem_iff.mp hxmem,
      hs.2.2.1, hs.1, hs.2.1, hs.2.2.2, ?_⟩
    unfold format_price_entry
    rw [hs.1, hs.2.1]

theorem generate_prices_value_and_format_witness :
    ∃ item ∈ [((⟨2024, 3, 1⟩ : PyDate), (⟨false, 3060, -1⟩ : Dec)),
              (⟨2024, 1, 1⟩, ⟨false, 3000, -1⟩), (⟨2024, 2, 1⟩, ⟨false, 3030, -1⟩)],
      (⟨⟨2024, 2, 1⟩, "I-USD", "USD", ⟨false, 101, -2⟩⟩ : PriceEntry).date = item.1 ∧
      (⟨⟨2024, 2, 1⟩, "I-USD", "USD", ⟨false, 101, -2⟩⟩ : PriceEntry).commodity = "I-USD" ∧
      (⟨⟨2024, 2, 1⟩, "I-USD", "USD", ⟨false, 101, -2⟩⟩ : PriceEntry).base_currency = "USD" ∧
      (do
        let q ← decDiv item.2
          (base_cpi_of
            [((⟨2024, 3, 1⟩ : PyDate), (⟨false, 3060, -1⟩ : Dec)),
             (⟨2024, 1, 1⟩, ⟨false, 3000, -1⟩), (⟨2024, 2, 1⟩, ⟨false, 3030, -1⟩)]
            ⟨2024, 1, 1⟩)
        decQuantize q (-2) : Except PyErr Dec) =
        .ok (⟨⟨2024, 2, 1⟩, "I-USD", "USD", ⟨false, 101, -2⟩⟩ : PriceEntry).value ∧
      format_price_entry (⟨⟨2024, 2, 1⟩, "I-USD", "USD", ⟨false, 101, -2⟩⟩ : PriceEntry) =
        strftimeISO (⟨⟨2024, 2, 1⟩, "I-USD", "USD", ⟨false, 101, -2⟩⟩ : PriceEntry).date ++
          " price " ++ "I-USD" ++ " " ++
          decStr (⟨⟨2024, 2, 1⟩, "I-USD", "USD", ⟨false, 101, -2⟩⟩ : PriceEntry).value ++
          " " ++ "USD" :=
  generate_prices_value_and_format "I-USD" "USD"
    [(⟨2024, 3, 1⟩, ⟨false, 3060, -1⟩), (⟨2024, 1, 1⟩, ⟨false, 3000, -1⟩),
     (⟨2024, 2, 1⟩, ⟨false, 3030, -1⟩)]
    ⟨2024, 1, 1⟩
    [⟨⟨2024, 1, 1⟩, "I-USD", "USD", ⟨false, 100, -2⟩⟩,
     ⟨⟨2024, 2, 1⟩, "I-USD", "USD", ⟨false, 101, -2⟩⟩,
     ⟨⟨2024, 3, 1⟩, "I-USD", "USD", ⟨false, 102, -2⟩⟩]
    (by decide) ⟨⟨2024, 2, 1⟩, "I-USD", "USD", ⟨false, 101, -2⟩⟩ (by decide)

/-! ## C1: exactness of the amount normalizer

The claim quantifies over amount strings made of an optional currency
symbol, optional commas, optional whitespace, an optional enclosing
parenthesis pair and a decimal numeral.  A string is of that shape
exactly when its cleaned form (currency symbols, commas and whitespace
removed) is a plain decimal numeral, optionally wrapped in one
parenthesis pair; the numeral is described by its digit lists. -/

/-- The character of a single decimal digit. -/
def digitChar (d : Nat) : Char := Char.ofNat (48 + d)

/-- The characters of a decimal numeral with integer digits `ip` and an
optional fractional part `fp` (present with a decimal point, also when
empty, as in `45.`). -/
def numeralChars (ip : List Nat) (fp : Option (List Nat)) : List Char :=
  ip.map digitChar ++ (match fp with | none => [] | some f => '.' :: f.map digitChar)

/-- The exact rational value of such a numeral. -/
def numeralVal (ip : List Nat) (fp : Option (List Nat)) : Rat :=
  (digitsVal ip : Rat) +
    (match fp with | none => 0 | some f => (digitsVal f : Rat) / (10 : Rat) ^ f.length)

theorem digitChar_props (d : Nat) (h : d < 10) :
    (digitChar d).isDigit = true ∧ pyWs (digitChar d) = false ∧ digitChar d ≠ '_' ∧
    digitChar d ≠ '+' ∧ digitChar d ≠ '-' ∧ digitChar d ≠ '(' ∧ digitChar d ≠ ')' ∧
    (digitChar d).toNat - 48 = d := by
  interval_cases d <;> decide

theorem foldl_digitsVal (a : Nat) (l : List Nat) :
    l.foldl (fun x d => x * 10 + d) a = a * 10 ^ l.length + digitsVal l := by
  induction l generalizing a with
  | nil => simp [digitsVal]
  | cons d rest ih =>
    have hd : digitsVal (d :: rest) = d * 10 ^ rest.length + digitsVal rest := by
      show List.foldl (fun x d => x * 10 + d) (0 * 10 + d) rest = _
      rw [ih]
      ring_nf
    rw [List.foldl_cons, ih, hd, List.length_cons]
    ring

theorem digitsVal_append (l1 l2 : List Nat) :
    digitsVal (l1 ++ l2) = digitsVal l1 * 10 ^ l2.length + digitsVal l2 := by
  show List.foldl _ 0 (l1 ++ l2) = _
  rw [List.foldl_append]
  exact foldl_digitsVal _ _

theorem charsVal_map_digitChar (l : List Nat) (h : ∀ d ∈ l, d < 10) :
    charsVal (l.map digitChar) = digitsVal l := by
  unfold charsVal digitsVal
  induction l with
  | nil => rfl
  | cons d rest ih =>
    rw [List.map_cons, List.foldl_cons, List.foldl_cons,
      (digitChar_props d (h d (List.mem_cons_self d rest))).2.2.2.2.2.2.2]
    have step : ∀ (a : Nat) (l2 : List Nat), (∀ x ∈ l2, x < 10) →
        (l2.map digitChar).foldl (fun x c => x * 10 + (c.toNat - 48)) a =
          l2.foldl (fun x d => x * 10 + d) a := by
      intro a l2 h2
      induction l2 generalizing a with
      | nil => rfl
      | cons e r ihr =>
        rw [List.map_cons, List.foldl_cons, List.foldl_cons,
          (digitChar_props e (h2 e (List.mem_cons_self e r))).2.2.2.2.2.2.2]
        exact ihr _ (fun x hx => h2 x (List.mem_cons_of_mem e hx))
    exact step _ rest (fun x hx => h x (List.mem_cons_of_mem d hx))

theorem takeWhile_map_digitChar (l : List Nat) (h : ∀ d ∈ l, d < 10) (rest : List Char)
    (hrest : ∀ c, rest.head? = some c → c.isDigit = false) :
    (l.map digitChar ++ rest).takeWhile Char.isDigit = l.map digitChar ∧
    (l.map digitChar ++ rest).dropWhile Char.isDigit = rest := by
  induction l with
  | nil =>
    simp only [List.map_nil, List.nil_append]
    cases rest with
    | nil => exact ⟨rfl, rfl⟩
    | cons c r =>
      have hc := hrest c rfl
      rw [List.takeWhile_cons, List.dropWhile_cons, hc]
      exact ⟨rfl, rfl⟩
  | cons d l2 ih =>
    have hd := (digitChar_props d (h d (List.mem_cons_self d l2))).1
    have ih2 := ih (fun x hx => h x (List.mem_cons_of_mem d hx))
    rw [List.map_cons, List.cons_append, List.takeWhile_cons, List.dropWhile_cons, hd]
    simp only [if_true]
    exact ⟨by rw [ih2.1], by rw [ih2.2]⟩

theorem takeWhile_eq_self_of_all {p : Char → Bool} {l : List Char}
    (h : ∀ c ∈ l, p c = true) : l.takeWhile p = l ∧ l.dropWhile p = [] := by
  induction l with
  | nil => exact ⟨rfl, rfl⟩
  | cons c r ih =>
    have hc := h c (List.mem_cons_self c r)
    have ih2 := ih (fun x hx => h x (List.mem_cons_of_mem c hx))
    rw [List.takeWhile_cons, List.dropWhile_cons, hc]
    simp only [if_true]
    exact ⟨by rw [ih2.1], ih2.2⟩

theorem dropWhile_eq_self_of_all {p : Char → Bool} {l : List Char}
    (h : ∀ c ∈ l, p c = false) : l.dropWhile p = l := by
  cases l with
  | nil => rfl
  | cons c r =>
    rw [List.dropWhile_cons, h c (List.mem_cons_self c r)]
    rw [if_neg Bool.false_ne_true]

theorem trimWs_eq_self {cs : List Char} (h : ∀ c ∈ cs, pyWs c = false) : trimWs cs = cs := by
  unfold trimWs
  rw [dropWhile_eq_self_of_all h]
  rw [dropWhile_eq_self_of_all (fun c hc => h c (List.mem_reverse.mp hc))]
  exact List.reverse_reverse cs

theorem filter_underscore_eq_self {cs : List Char} (h : ∀ c ∈ cs, c ≠ '_') :
    cs.filter (fun c => c ≠ '_') = cs :=
  List.filter_eq_self.mpr (fun c hc => decide_eq_true (h c hc))

theorem numeralChars_facts (ip : List Nat) (fp : Option (List Nat))
    (hip : ∀ d ∈ ip, d < 10) (hfp : ∀ f, fp = some f → ∀ d ∈ f, d < 10) :
    ∀ c ∈ numeralChars ip fp, pyWs c = false ∧ c ≠ '_' := by
  intro c hc
  unfold numeralChars at hc
  rcases List.mem_append.mp hc with hmem | hmem
  · obtain ⟨d, hd, hdc⟩ := List.mem_map.mp hmem
    rw [← hdc]
    exact ⟨(digitChar_props d (hip d hd)).2.1, (digitChar_props d (hip d hd)).2.2.1⟩
  · cases hf : fp with
    | none => rw [hf] at hmem; cases hmem
    | some f =>
      rw [hf] at hmem
      cases hmem with
      | head => exact ⟨by decide, by decide⟩
      | tail _ htail =>
        obtain ⟨d, hd, hdc⟩ := List.mem_map.mp htail
        rw [← hdc]
        exact ⟨(digitChar_props d (hfp f hf d hd)).2.1,
          (digitChar_props d (hfp f hf d hd)).2.2.1⟩

theorem parseDecBody_numeral (sign : Bool) (ip : List Nat) (fp : Option (List Nat))
    (hip : ∀ d ∈ ip, d < 10) (hfp : ∀ f, fp = some f → ∀ d ∈ f, d < 10)
    (hne : ip ≠ [] ∨ ∃ f, fp = some f ∧ f ≠ []) :
    parseDecBody sign (numeralChars ip fp) =
      some (.fin ⟨sign, digitsVal (ip ++ fp.getD []), -(((fp.getD []).length : Nat) : Int)⟩) := by
  cases fp with
  | none =>
    have hipne : ip ≠ [] := by
      rcases hne with h | ⟨f, hf, _⟩
      · exact h
      · cases hf
    have hall : ∀ c ∈ ip.map digitChar, Char.isDigit c = true := by
      intro c hc
      obtain ⟨d, hd, hdc⟩ := List.mem_map.mp hc
      rw [← hdc]
      exact (digitChar_props d (hip d hd)).1
    have htake := (takeWhile_eq_self_of_all hall).1
    have hdrop := (takeWhile_eq_self_of_all hall).2
    have hemp : (ip.map digitChar).isEmpty = false := by
      cases ip with
      | nil => exact absurd rfl hipne
      | cons d l => rfl
    have hchars := charsVal_map_digitChar ip hip
    show parseDecBody sign (ip.map digitChar ++ []) = _
    rw [List.append_nil]
    simp only [parseDecBody, htake, hdrop, hemp, hchars]
    simp [hchars]
  | some f =>
    have hfd : ∀ d ∈ f, d < 10 := hfp f rfl
    have hrest : ∀ c, ('.' :: f.map digitChar).head? = some c → c.isDigit = false := by
      intro c hc
      injection hc with hc
      rw [← hc]
      decide
    have htake := (takeWhile_map_digitChar ip hip ('.' :: f.map digitChar) hrest).1
    have hdrop := (takeWhile_map_digitChar ip hip ('.' :: f.map digitChar) hrest).2
    have hallf : ∀ c ∈ f.map digitChar, Char.isDigit c = true := by
      intro c hc
      obtain ⟨d, hd, hdc⟩ := List.mem_map.mp hc
      rw [← hdc]
      exact (digitChar_props d (hfd d hd)).1
    have htakef := (takeWhile_eq_self_of_all hallf).1
    have hdropf := (takeWhile_eq_self_of_all hallf).2
    have hemp : ((ip.map digitChar).isEmpty && (f.map digitChar).isEmpty) = false := by
      rcases hne with h | ⟨f2, hf2, h⟩
      · cases ip with
        | nil => exact absurd rfl h
        | cons d l => rfl
      · injection hf2 with hf2
        subst hf2
        cases f with
        | nil => exact absurd rfl h
        | cons d l => simp
    have hchars : charsVal (ip.map digitChar ++ f.map digitChar) = digitsVal (ip ++ f) := by
      rw [← List.map_append]
      refine charsVal_map_digitChar _ ?_
      intro d hd
      rcases List.mem_append.mp hd with h | h
      · exact hip d h
      · exact hfd d h
    show parseDecBody sign (ip.map digitChar ++ ('.' :: f.map digitChar)) = _
    simp only [parseDecBody, htake, hdrop, List.head?_cons, List.tail_cons, htakef, hdropf,
      hemp, hchars]
    simp [hchars]
    intro hip0
    rcases hne with h | ⟨f2, hf2, h⟩
    · exact absurd hip0 h
    · injection hf2 with hf2
      subst hf2
      exact h

theorem numeralChars_head_not (ip : List Nat) (fp : Option (List Nat))
    (hip : ∀ d ∈ ip, d < 10) (c0 : Char) (hc0 : c0 = '+' ∨ c0 = '-' ∨ c0 = '(') :
    ¬(numeralChars ip fp).head? = some c0 := by
  intro h
  cases ip with
  | nil =>
    cases fp with
    | none => cases h
    | some f =>
      have : ('.' : Char) = c0 := by
        have h2 : ('.' :: f.map digitChar).head? = some c0 := h
        injection h2
      rcases hc0 with h3 | h3 | h3 <;> rw [h3] at this <;> cases this
  | cons d l =>
    have h2 : (digitChar d :: (l.map digitChar ++
        (match fp with | none => [] | some f => '.' :: f.map digitChar))).head? = some c0 := h
    injection h2 with h2
    have hd := digitChar_props d (hip d (List.mem_cons_self d l))
    rcases hc0 with h3 | h3 | h3 <;> rw [h3] at h2
    · exact hd.2.2.2.1 h2
    · exact hd.2.2.2.2.1 h2
    · exact hd.2.2.2.2.2.1 h2

theorem parseDecimal_numeral (sign : Bool) (ip : List Nat) (fp : Option (List Nat))
    (hip : ∀ d ∈ ip, d < 10) (hfp : ∀ f, fp = some f → ∀ d ∈ f, d < 10)
    (hne : ip ≠ [] ∨ ∃ f, fp = some f ∧ f ≠ []) :
    parseDecimal ((if sign then ['-'] else []) ++ numeralChars ip fp) =
      some (.fin ⟨sign, digitsVal (ip ++ fp.getD []), -(((fp.getD []).length : Nat) : Int)⟩) := by
  have hfacts := numeralChars_facts ip fp hip hfp
  have hall2 : ∀ c ∈ (if sign then ['-'] else []) ++ numeralChars ip fp,
      pyWs c = false ∧ c ≠ '_' := by
    intro c hc
    rcases List.mem_append.mp hc with h | h
    · cases sign with
      | true =>
        have : c = '-' := by
          cases h with
          | head => rfl
          | tail _ h2 => cases h2
        rw [this]
        exact ⟨by decide, by decide⟩
      | false => cases h
    · exact hfacts c h
  unfold parseDecimal
  rw [trimWs_eq_self (fun c hc => (hall2 c hc).1),
    filter_underscore_eq_self (fun c hc => (hall2 c hc).2)]
  cases sign with
  | true =>
    show (let signAndRest : Bool × List Char :=
        if ('-' :: numeralChars ip fp).head? = some '+' then (false, numeralChars ip fp)
        else if ('-' :: numeralChars ip fp).head? = some '-' then (true, numeralChars ip fp)
        else (false, '-' :: numeralChars ip fp)
      match parseDecBody signAndRest.1 signAndRest.2 with
      | some v => some v
      | none => parseDecSpecial signAndRest.1 signAndRest.2) = _
    have h1 : ¬('-' :: numeralChars ip fp).head? = some '+' := by
      intro h
      injection h with h
      exact absurd h (by decide)
    have h2 : ('-' :: numeralChars ip fp).head? = some '-' := rfl
    rw [if_neg h1, if_pos h2]
    dsimp only
    rw [parseDecBody_numeral true ip fp hip hfp hne]
  | false =>
    show (let signAndRest : Bool × List Char :=
        if (numeralChars ip fp).head? = some '+' then (false, (numeralChars ip fp).tail)
        else if (numeralChars ip fp).head? = some '-' then (true, (numeralChars ip fp).tail)
        else (false, numeralChars ip fp)
      match parseDecBody signAndRest.1 signAndRest.2 with
      | some v => some v
      | none => parseDecSpecial signAndRest.1 signAndRest.2) = _
    rw [if_neg (numeralChars_head_not ip fp hip '+' (Or.inl rfl)),
      if_neg (numeralChars_head_not ip fp hip '-' (Or.inr (Or.inl rfl)))]
    dsimp only
    rw [parseDecBody_numeral false ip fp hip hfp hne]

theorem ratPow10_neg_natCast (n : Nat) : ratPow10 (-(n : Int)) = 1 / (10 : Rat) ^ n := by
  cases n with
  | zero =>
    show ((10 ^ 0 : Nat) : Rat) = 1 / (10 : Rat) ^ 0
    norm_num
  | succ m =>
    show (1 / ((10 ^ (m + 1) : Nat) : Rat)) = 1 / (10 : Rat) ^ (m + 1)
    push_cast
    ring

theorem val_of_numeral (sign : Bool) (ip : List Nat) (fp : Option (List Nat)) :
    Dec.val ⟨sign, digitsVal (ip ++ fp.getD []), -(((fp.getD []).length : Nat) : Int)⟩ =
      (if sign then -1 else 1) * numeralVal ip fp := by
  unfold Dec.val numeralVal
  cases fp with
  | none =>
    dsimp only [Option.getD]
    rw [List.append_nil, List.length_nil, ratPow10_neg_natCast 0]
    cases sign <;> norm_num
  | some f =>
    dsimp only [Option.getD]
    rw [ratPow10_neg_natCast f.length]
    have hsplit : ((digitsVal (ip ++ f) : Nat) : Rat) =
        (digitsVal ip : Rat) * 10 ^ f.length + (digitsVal f : Rat) := by
      exact_mod_cast congrArg (fun n : Nat => (n : Rat)) (digitsVal_append ip f)
    rw [hsplit]
    have hne10 : (10 : Rat) ^ f.length ≠ 0 := pow_ne_zero _ (by norm_num)
    cases sign <;> field_simp

/-- C1: for every amount string whose cleaned form (currency symbols
`$ € £ ¥ ₹`, thousands-separator commas and whitespace removed) is a
decimal numeral, optionally enclosed in one parenthesis pair,
`_parse_amount` returns a finite decimal whose exact rational value is
the value of the numeral, negated exactly when the parenthesis pair
encloses it; no binary floating point is involved at any stage (the
embedding is exact rational arithmetic). -/
theorem parse_amount_exact (s : List Char) (ip : List Nat) (fp : Option (List Nat)) (neg : Bool)
    (hip : ∀ d ∈ ip, d < 10) (hfp : ∀ f, fp = some f → ∀ d ∈ f, d < 10)
    (hne : ip ≠ [] ∨ ∃ f, fp = some f ∧ f ≠ [])
    (hclean : cleanAmount s =
      if neg then '(' :: (numeralChars ip fp ++ [')']) else numeralChars ip fp) :
    parse_amount_chars s =
      .ok (.fin ⟨neg, digitsVal (ip ++ fp.getD []), -(((fp.getD []).length : Nat) : Int)⟩) ∧
    Dec.val ⟨neg, digitsVal (ip ++ fp.getD []), -(((fp.getD []).length : Nat) : Int)⟩ =
      (if neg then -1 else 1) * numeralVal ip fp := by
  refine ⟨?_, ?_⟩
  · unfold parse_amount_chars
    rw [hclean]
    cases neg with
    | true =>
      rw [if_pos (Eq.refl true)]
      have hadj : parenAdjust ('(' :: (numeralChars ip fp ++ [')'])) =
          '-' :: numeralChars ip fp := by
        unfold parenAdjust
        have hlast : ('(' :: (numeralChars ip fp ++ [')'])).getLast? = some ')' := by
          rw [← List.cons_append]
          exact List.getLast?_concat _
        rw [if_pos]
        · show '-' :: (numeralChars ip fp ++ [')']).dropLast = _
          rw [List.dropLast_concat]
        · rw [hlast]
          simp
      rw [hadj]
      have hp := parseDecimal_numeral true ip fp hip hfp hne
      simp only [if_true, List.singleton_append] at hp
      rw [hp]
    | false =>
      rw [if_neg Bool.false_ne_true]
      have hadj : parenAdjust (numeralChars ip fp) = numeralChars ip fp := by
        unfold parenAdjust
        rw [if_neg]
        intro habs
        rcases Bool.and_eq_true _ _ |>.mp habs with ⟨h1, _⟩
        exact numeralChars_head_not ip fp hip '(' (Or.inr (Or.inr rfl)) (of_decide_eq_true h1)
      rw [hadj]
      have hp := parseDecimal_numeral false ip fp hip hfp hne
      simp only [Bool.false_eq_true, if_false, List.nil_append] at hp
      rw [hp]
  · exact val_of_numeral neg ip fp

theorem parse_amount_exact_witness :
    (parse_amount_chars "$1,234.56".data =
        .ok (.fin ⟨false, digitsVal ([1, 2, 3, 4] ++ [5, 6]), -((2 : Nat) : Int)⟩) ∧
      Dec.val ⟨false, digitsVal ([1, 2, 3, 4] ++ [5, 6]), -((2 : Nat) : Int)⟩ =
        (if false then -1 else 1) * numeralVal [1, 2, 3, 4] (some [5, 6])) ∧
    (parse_amount_chars "(45.23)".data =
        .ok (.fin ⟨true, digitsVal ([4, 5] ++ [2, 3]), -((2 : Nat) : Int)⟩) ∧
      Dec.val ⟨true, digitsVal ([4, 5] ++ [2, 3]), -((2 : Nat) : Int)⟩ =
        (if true then -1 else 1) * numeralVal [4, 5] (some [2, 3])) := by
  constructor
  · exact parse_amount_exact "$1,234.56".data [1, 2, 3, 4] (some [5, 6]) false
      (by decide) (by intro f hf; injection hf with hf; rw [← hf]; decide)
      (Or.inr ⟨[5, 6], rfl, by decide⟩) (by decide)
  · exact parse_amount_exact "(45.23)".data [4, 5] (some [2, 3]) true
      (by decide) (by intro f hf; injection hf with hf; rw [← hf]; decide)
      (Or.inr ⟨[2, 3], rfl, by decide⟩) (by decide)

end Accountant

